import Mathlib

/-!
Verification of the climageproc batch image processor (src/main.rs) against
its specification.  The program is embedded shallowly: file names, paths and
format strings are lists of characters; the filesystem and its side effects
are modelled by an explicit `World` and an ordered trace of `Event`s; the
external image codec library is modelled from its documented contract, with
exact rational arithmetic standing in for the floating point used by the
library and by the aspect-ratio computation in `process_image`.
-/

namespace Climageproc

/-- Strings (file names, paths, format strings) as lists of characters.
UTF-8 validity of OS strings is assumed, matching the code, which drops
entries whose extension is not valid UTF-8. -/
abbrev Str := List Char

/-- Models Rust `str::to_lowercase` on the strings relevant here.  Lean's
`Char.toLower` lowers only ASCII letters; Rust performs full Unicode
lowercasing, but no non-ASCII character lowercases to a plain ASCII string,
so membership in the ASCII format catalog is decided identically. -/
def toLowercase (s : Str) : Str := s.map Char.toLower

/-- Split a string at its last dot: `some (before, after)` where `after`
is dot-free, or `none` when the string has no dot. -/
def splitLastDot : Str → Option (Str × Str)
  | [] => none
  | c :: rest =>
    match splitLastDot rest with
    | some (pre, ext) => some (c :: pre, ext)
    | none => if c = '.' then some ([], rest) else none

/-- Models Rust `Path::extension` applied to a final path component: the
portion after the last dot, unless the portion before that dot is empty
(hidden files like ".png" have no extension). -/
def extOf (s : Str) : Option Str :=
  match splitLastDot s with
  | some (pre, ext) => if pre = [] then none else some ext
  | none => none

/-- Models Rust `Path::file_stem` applied to a final path component. -/
def stemOf (s : Str) : Str :=
  match splitLastDot s with
  | some (pre, _) => if pre = [] then s else pre
  | none => s

/-- Models Rust `PathBuf::set_extension` applied to a final path component:
the stem keeps, the extension (if any) is replaced by `ext`, or removed
when `ext` is empty. -/
def setExtension (s ext : Str) : Str :=
  if ext = [] then stemOf s else stemOf s ++ '.' :: ext

/-- Split a path at its last slash. -/
def splitLastSlash : Str → Option (Str × Str)
  | [] => none
  | c :: rest =>
    match splitLastSlash rest with
    | some (pre, post) => some (c :: pre, post)
    | none => if c = '/' then some ([], rest) else none

/-- Models Rust `Path::parent`: the path without its final component;
`none` for the empty path.  Root-path handling is simplified (the parent
of an absolute path "/a" is modelled as "" rather than "/"); no claim
depends on it. -/
def parentOf (p : Str) : Option Str :=
  match splitLastSlash p with
  | some (pre, _) => some pre
  | none => if p = [] then none else some []

/-- Models Rust `PathBuf::push` of a relative final component, as produced
by `read_dir` (such names are never absolute). -/
def pathJoin (dir name : Str) : Str := dir ++ '/' :: name

end Climageproc

namespace Climageproc

/-- A decoded raster image; only its dimensions are observable to the
program (pixel contents never influence control flow in main.rs). -/
structure Image where
  width : Nat
  height : Nat
deriving DecidableEq

/-- The codec formats of the image crate that main.rs names. -/
inductive ImageFormat
  | Jpeg
  | Png
  | Gif
  | WebP
deriving DecidableEq

/-- Resampling filters of the image crate; main.rs only ever uses
Lanczos3. -/
inductive FilterType
  | Nearest
  | Triangle
  | CatmullRom
  | Gaussian
  | Lanczos3
deriving DecidableEq

/-- The clap subcommands of main.rs, stripped of the input and output
paths, which are passed separately (the code only ever reads the width,
height and format fields through this value). -/
inductive Commands
  | Resize (width : Option Nat) (height : Option Nat)
  | Convert (format : Str)
deriving DecidableEq

/-- The error kinds the specification distinguishes.  In the code all
errors are anyhow values; these constructors classify them by origin:
failing to open a missing input, failing to decode unreadable bytes, the
explicit unsupported-format rejection, and filesystem failures. -/
inductive ProcError
  | notFound (path : Str)
  | decodeError (path : Str)
  | unsupportedFormat (format : Str)
  | ioError
deriving DecidableEq

end Climageproc

namespace Climageproc

/-- Rounding to the nearest integer, halves away from zero, on the
nonnegative rationals arising here; models Rust `f32::round` and
`f64::round` (halves away from zero), with exact rational arithmetic in
place of floating point. -/
def roundHalfUp (q : ℚ) : ℤ := ⌊q + 1 / 2⌋

/-- The aspect-ratio height computed by `process_image` when only a width
is given: `let ratio = img.height() as f32 / img.width() as f32;
(*w as f32 * ratio).round() as u32`, with exact rational arithmetic in
place of f32 (for zero source width the model yields 0 where f32 yields
infinity; every claim restricts to positive source dimensions). -/
def heightFromWidth (img : Image) (w : Nat) : Nat :=
  (roundHalfUp ((w : ℚ) * ((img.height : ℚ) / (img.width : ℚ)))).toNat

/-- The aspect-ratio width computed by `process_image` when only a height
is given, symmetric to `heightFromWidth`. -/
def widthFromHeight (img : Image) (h : Nat) : Nat :=
  (roundHalfUp ((h : ℚ) * ((img.width : ℚ) / (img.height : ℚ)))).toNat

/-- Models the image crate function `resize_dimensions(width, height,
nwidth, nheight, fill = false)` used by `DynamicImage::resize`: the
largest dimensions preserving the aspect ratio that fit inside
`nwidth` by `nheight`, each at least 1, with exact rational arithmetic in
place of f64 (the u32 overflow clamp of the crate is omitted; no claim
reaches it). -/
def resizeDimensions (width height nwidth nheight : Nat) : Nat × Nat :=
  let wratio : ℚ := (nwidth : ℚ) / (width : ℚ)
  let hratio : ℚ := (nheight : ℚ) / (height : ℚ)
  let ratio := min wratio hratio
  (max (roundHalfUp ((width : ℚ) * ratio)).toNat 1,
   max (roundHalfUp ((height : ℚ) * ratio)).toNat 1)

/-- Models `DynamicImage::resize_exact` from its documented contract: the
result has exactly the requested dimensions (aspect ratio not
preserved). -/
def resize_exact (img : Image) (nwidth nheight : Nat) (f : FilterType) : Image :=
  ⟨nwidth, nheight⟩

/-- Models `DynamicImage::resize` from its documented contract: the
result preserves the aspect ratio and is the largest image fitting within
the requested bounds, via `resizeDimensions`. -/
def resize (img : Image) (nwidth nheight : Nat) (f : FilterType) : Image :=
  ⟨(resizeDimensions img.width img.height nwidth nheight).1,
   (resizeDimensions img.width img.height nwidth nheight).2⟩

/-- The transform applied by `process_image` to the decoded image,
mirroring its match on the command: both dimensions given, width only,
height only, neither, and the convert passthrough.  The second component
records the resampling filter of the resize call made, if any. -/
def transformImage (img : Image) (command : Commands) : Image × Option FilterType :=
  match command with
  | Commands.Resize width height =>
    match width, height with
    | some w, some h => (resize_exact img w h FilterType.Lanczos3, some FilterType.Lanczos3)
    | some w, none =>
      let h := heightFromWidth img w
      (resize img w h FilterType.Lanczos3, some FilterType.Lanczos3)
    | none, some h =>
      let w := widthFromHeight img h
      (resize img w h FilterType.Lanczos3, some FilterType.Lanczos3)
    | none, none => (img, none)
  | Commands.Convert _ => (img, none)

end Climageproc

namespace Climageproc

/-- What a filesystem path may hold: a file that decodes as an image, a
file that does not, or a directory. -/
inductive FileContent
  | image (img : Image)
  | nonImage
deriving DecidableEq

/-- A node of the modelled filesystem. -/
inductive FsNode
  | file (content : FileContent)
  | dir
deriving DecidableEq

/-- The kind of a directory entry as returned by `read_dir`. -/
inductive EntryKind
  | file
  | dir
deriving DecidableEq

/-- One entry of a directory listing: its file name (final component) and
whether it is a file or a subdirectory. -/
structure DirEntry where
  name : Str
  kind : EntryKind
deriving DecidableEq

/-- The filesystem environment a run executes against: the node at each
path, the `read_dir` listing of each directory, and which
`create_dir_all` calls succeed. -/
structure World where
  node : Str → Option FsNode
  listing : Str → List DirEntry
  createDirOk : Str → Bool

/-- Decidable equality for `Except` results, so that concrete runs of the
model can be checked by evaluation. -/
instance exceptDecidableEq {ε α : Type} [DecidableEq ε] [DecidableEq α] :
    DecidableEq (Except ε α)
  | Except.ok a, Except.ok b =>
    if h : a = b then isTrue (by rw [h]) else isFalse (by intro hc; cases hc; exact h rfl)
  | Except.ok _, Except.error _ => isFalse (by intro hc; cases hc)
  | Except.error _, Except.ok _ => isFalse (by intro hc; cases hc)
  | Except.error e, Except.error f =>
    if h : e = f then isTrue (by rw [h]) else isFalse (by intro hc; cases hc; exact h rfl)

/-- The observable filesystem side effects of a run, in order. -/
inductive Event
  | createDirAll (path : Str)
  | wrote (path : Str) (img : Image) (fmt : Option ImageFormat)
deriving DecidableEq

/-- Models `image::open` as called at the top of `process_image`: opening
a missing path fails with the not-found kind, opening a directory fails
with an I/O read failure, and a file whose bytes are not a recognized
image fails to decode (spec section 7 error kinds). -/
def openImage (w : World) (path : Str) : Except ProcError Image :=
  match w.node path with
  | none => Except.error (ProcError.notFound path)
  | some FsNode.dir => Except.error ProcError.ioError
  | some (FsNode.file FileContent.nonImage) => Except.error (ProcError.decodeError path)
  | some (FsNode.file (FileContent.image img)) => Except.ok img

/-- The inline format match of `process_image` for the Convert command:
lower-case the requested string, map jpg/jpeg, png, gif, webp to their
codec formats, and reject anything else. -/
def resolve_format (format : Str) : Except ProcError ImageFormat :=
  let f := toLowercase format
  if f = "jpg".toList ∨ f = "jpeg".toList then Except.ok ImageFormat.Jpeg
  else if f = "png".toList then Except.ok ImageFormat.Png
  else if f = "gif".toList then Except.ok ImageFormat.Gif
  else if f = "webp".toList then Except.ok ImageFormat.WebP
  else Except.error (ProcError.unsupportedFormat format)

/-- Models `process_image(input_path, output_path, command)` of main.rs,
step for step: open and decode the input; apply the transform; create the
parent directory of the output path when there is one, failing with an
I/O error if the filesystem refuses; then, for Convert, resolve the
format and save with it explicitly, otherwise save with the format
inferred from the output extension.  The returned trace lists the
filesystem effects in order; encoding failures of the final save are not
modelled (no claim concerns them). -/
def process_image (w : World) (input_path output_path : Str) (command : Commands) :
    Except ProcError Unit × List Event :=
  match openImage w input_path with
  | Except.error e => (Except.error e, [])
  | Except.ok img =>
    let processed_img := (transformImage img command).1
    let dirStep : Except ProcError (List Event) :=
      match parentOf output_path with
      | some parent =>
        if w.createDirOk parent then Except.ok [Event.createDirAll parent]
        else Except.error ProcError.ioError
      | none => Except.ok []
    match dirStep with
    | Except.error e => (Except.error e, [])
    | Except.ok evs =>
      match command with
      | Commands.Convert format =>
        match resolve_format format with
        | Except.error e => (Except.error e, evs)
        | Except.ok fmt =>
          (Except.ok (), evs ++ [Event.wrote output_path processed_img (some fmt)])
      | _ => (Except.ok (), evs ++ [Event.wrote output_path processed_img none])

/-- The discovery filter of `process_directory`: keep an entry when the
extension of its path, lower-cased, is one of the five supported ones.
The filter inspects only the extension, exactly as the code does. -/
def isSupportedExt (name : Str) : Bool :=
  match extOf name with
  | some ext =>
    let e := toLowercase ext
    e == "jpg".toList || e == "jpeg".toList || e == "png".toList ||
      e == "gif".toList || e == "webp".toList
  | none => false

/-- The entries `process_directory` collects from `read_dir(input)`. -/
def discovered (listing : List DirEntry) : List DirEntry :=
  listing.filter (fun e => isSupportedExt e.name)

/-- The output path `process_directory` derives for one entry: the output
directory joined with the entry's file name, with the extension rewritten
to the raw requested format string when converting (`set_extension`
rewrites only the final path component). -/
def output_path_for (output name : Str) (command : Commands) : Str :=
  match command with
  | Commands.Convert format => pathJoin output (setExtension name format)
  | _ => pathJoin output name

/-- The `try_for_each` loop body of `process_directory` over the
discovered entries, modelled as a sequential traversal in listing order:
each entry is processed; the first failure short-circuits and becomes the
single returned error; effects of completed entries accumulate in
order. -/
def tryForEach (w : World) (input output : Str) (command : Commands) :
    List DirEntry → Except ProcError Unit × List Event
  | [] => (Except.ok (), [])
  | e :: rest =>
    let input_path := pathJoin input e.name
    let out := output_path_for output e.name command
    let r := process_image w input_path out command
    match r.1 with
    | Except.error err => (Except.error err, r.2)
    | Except.ok _ =>
      let rest_r := tryForEach w input output command rest
      (rest_r.1, r.2 ++ rest_r.2)

/-- Models `process_directory(input, output, command)`: list the
directory, filter by supported extension, then run the per-entry loop.
The rayon parallel iteration is modelled as a sequential traversal in
listing order (so the first error encountered is the first in that
order); the progress bar has no filesystem effect and is omitted. -/
def process_directory (w : World) (input output : Str) (command : Commands) :
    Except ProcError Unit × List Event :=
  tryForEach w input output command (discovered (w.listing input))

/-- Models `Path::is_dir` of the dispatch in `main`. -/
def isDir (w : World) (p : Str) : Bool :=
  match w.node p with
  | some FsNode.dir => true
  | _ => false

/-- Models the dispatch of `main`: a directory input goes to
`process_directory`, anything else (including a missing path) goes to
`process_image` on the single path pair. -/
def mainRun (w : World) (input output : Str) (command : Commands) :
    Except ProcError Unit × List Event :=
  if isDir w input then process_directory w input output command
  else process_image w input output command

/-- The dimension formula in the words of the spec: the output height for
a width-only resize is `round(width * source_height / source_width)`
(with arguments `n = width`, `a = source_height`, `b = source_width`),
and symmetrically for the output width of a height-only resize. -/
def specRoundScaled (n a b : ℕ) : ℕ :=
  (roundHalfUp (((n * a : ℕ) : ℚ) / (b : ℚ))).toNat

end Climageproc

namespace Climageproc

theorem roundHalfUp_natCast (n : ℕ) : roundHalfUp (n : ℚ) = (n : ℤ) := by
  unfold roundHalfUp
  refine Int.floor_eq_iff.mpr ⟨by push_cast; linarith, by push_cast; linarith⟩

/-- The bounding-box fit of the modelled `resize` returns exactly the
requested box `(w, h)` when the width constraint is the binding one and
`h` is the rounded aspect height for `w`. -/
theorem resizeDimensions_fit_width (W H w h : ℕ) (hW : 0 < W) (hH : 0 < H)
    (hw : 0 < w) (hh : 0 < h)
    (hle : (w : ℚ) / (W : ℚ) ≤ (h : ℚ) / (H : ℚ))
    (hround : (roundHalfUp ((w : ℚ) * ((H : ℚ) / (W : ℚ)))).toNat = h) :
    resizeDimensions W H w h = (w, h) := by
  have hWQ : (0 : ℚ) < (W : ℚ) := by exact_mod_cast hW
  simp only [resizeDimensions]
  rw [min_eq_left hle]
  have e1 : (W : ℚ) * ((w : ℚ) / (W : ℚ)) = (w : ℚ) := by field_simp
  have e2 : (H : ℚ) * ((w : ℚ) / (W : ℚ)) = (w : ℚ) * ((H : ℚ) / (W : ℚ)) := by ring
  rw [e1, e2, roundHalfUp_natCast, hround]
  refine Prod.ext ?_ ?_ <;> simp <;> omega

/-- Symmetric companion of `resizeDimensions_fit_width`: the height
constraint is the binding one. -/
theorem resizeDimensions_fit_height (W H w h : ℕ) (hW : 0 < W) (hH : 0 < H)
    (hw : 0 < w) (hh : 0 < h)
    (hle : (h : ℚ) / (H : ℚ) ≤ (w : ℚ) / (W : ℚ))
    (hround : (roundHalfUp ((h : ℚ) * ((W : ℚ) / (H : ℚ)))).toNat = w) :
    resizeDimensions W H w h = (w, h) := by
  have hHQ : (0 : ℚ) < (H : ℚ) := by exact_mod_cast hH
  simp only [resizeDimensions]
  rw [min_eq_right hle]
  have e1 : (H : ℚ) * ((h : ℚ) / (H : ℚ)) = (h : ℚ) := by field_simp
  have e2 : (W : ℚ) * ((h : ℚ) / (H : ℚ)) = (h : ℚ) * ((W : ℚ) / (H : ℚ)) := by ring
  rw [e1, e2, roundHalfUp_natCast, hround]
  refine Prod.ext ?_ ?_ <;> simp <;> omega

/-- C1 (amended): for a source of width W > 0 and height H > 0 and a
width-only resize to w > 0, the code computes the target height
h = round(w * H / W) — the formula of the spec — and then performs an
aspect-preserving bounding-box fit into (w, h); whenever the rounding did
not round down (W * h is at least w * H) the output is exactly (w, h),
so the output width is exactly w and the output height is
round(w * H / W); symmetrically for a height-only resize.  (When the
rounding rounds down, the fit can shrink the width below w; see the
counterexample.) -/
theorem resize_single_dim_aspect (img : Image) (w h : ℕ)
    (hW : 0 < img.width) (hH : 0 < img.height) :
    (0 < w → w * img.height ≤ img.width * heightFromWidth img w →
      (transformImage img (Commands.Resize (some w) none)).1 =
        ⟨w, heightFromWidth img w⟩) ∧
    (0 < h → h * img.width ≤ img.height * widthFromHeight img h →
      (transformImage img (Commands.Resize none (some h))).1 =
        ⟨widthFromHeight img h, h⟩) ∧
    heightFromWidth img w = specRoundScaled w img.height img.width ∧
    widthFromHeight img h = specRoundScaled h img.width img.height := by
  obtain ⟨W, H⟩ := img
  simp only at hW hH
  refine ⟨?_, ?_, ?_, ?_⟩
  · intro hw hle
    dsimp only at hle
    have hhpos : 0 < heightFromWidth ⟨W, H⟩ w := by
      rcases Nat.eq_zero_or_pos (heightFromWidth ⟨W, H⟩ w) with h0 | hp
      · rw [h0, Nat.mul_zero] at hle
        have := Nat.mul_pos hw hH
        omega
      · exact hp
    have hWQ : (0 : ℚ) < (W : ℚ) := by exact_mod_cast hW
    have hHQ : (0 : ℚ) < (H : ℚ) := by exact_mod_cast hH
    have hleQ : (w : ℚ) / (W : ℚ) ≤ ((heightFromWidth ⟨W, H⟩ w : ℕ) : ℚ) / (H : ℚ) := by
      rw [div_le_div_iff₀ hWQ hHQ]
      have hc : ((w * H : ℕ) : ℚ) ≤ ((W * heightFromWidth ⟨W, H⟩ w : ℕ) : ℚ) := by
        exact_mod_cast hle
      push_cast at hc
      linarith
    have hfit := resizeDimensions_fit_width W H w (heightFromWidth ⟨W, H⟩ w)
      hW hH hw hhpos hleQ rfl
    simp only [transformImage, resize]
    rw [hfit]
  · intro hh hle
    dsimp only at hle
    have hwpos : 0 < widthFromHeight ⟨W, H⟩ h := by
      rcases Nat.eq_zero_or_pos (widthFromHeight ⟨W, H⟩ h) with h0 | hp
      · rw [h0, Nat.mul_zero] at hle
        have := Nat.mul_pos hh hW
        omega
      · exact hp
    have hWQ : (0 : ℚ) < (W : ℚ) := by exact_mod_cast hW
    have hHQ : (0 : ℚ) < (H : ℚ) := by exact_mod_cast hH
    have hleQ : (h : ℚ) / (H : ℚ) ≤ ((widthFromHeight ⟨W, H⟩ h : ℕ) : ℚ) / (W : ℚ) := by
      rw [div_le_div_iff₀ hHQ hWQ]
      have hc : ((h * W : ℕ) : ℚ) ≤ ((H * widthFromHeight ⟨W, H⟩ h : ℕ) : ℚ) := by
        exact_mod_cast hle
      push_cast at hc
      linarith
    have hfit := resizeDimensions_fit_height W H (widthFromHeight ⟨W, H⟩ h) h
      hW hH hwpos hh hleQ rfl
    simp only [transformImage, resize]
    rw [hfit]
  · show heightFromWidth ⟨W, H⟩ w = specRoundScaled w H W
    unfold heightFromWidth specRoundScaled
    have e : ((w : ℚ)) * ((H : ℚ) / (W : ℚ)) = (((w * H : ℕ) : ℚ)) / (W : ℚ) := by
      push_cast; ring
    simp only at e ⊢
    rw [e]
  · show widthFromHeight ⟨W, H⟩ h = specRoundScaled h W H
    unfold widthFromHeight specRoundScaled
    have e : ((h : ℚ)) * ((W : ℚ) / (H : ℚ)) = (((h * W : ℕ) : ℚ)) / (H : ℚ) := by
      push_cast; ring
    simp only at e ⊢
    rw [e]

/-- C1 counterexample: for a 1000 by 10 source resized with only
width 949, the claim says the output width is exactly 949 (and the
output height round(949 * 10 / 1000) = 9); in fact the code's
bounding-box resize yields a 900 by 9 image, so the width is not 949. -/
theorem resize_width_only_not_exact_cex :
    (transformImage ⟨1000, 10⟩ (Commands.Resize (some 949) none)).1.width ≠ 949 ∧
    (transformImage ⟨1000, 10⟩ (Commands.Resize (some 949) none)).1 = ⟨900, 9⟩ := by
  have hh : heightFromWidth ⟨1000, 10⟩ 949 = 9 := by
    norm_num [heightFromWidth, roundHalfUp]
    omega
  have hr : resizeDimensions 1000 10 949 9 = (900, 9) := by
    norm_num [resizeDimensions, min_def, roundHalfUp]
    omega
  have ht : (transformImage ⟨1000, 10⟩ (Commands.Resize (some 949) none)).1 = ⟨900, 9⟩ := by
    simp [transformImage, resize, hh, hr]
  exact ⟨by rw [ht]; simp, ht⟩

/-- Witness for C1: a 100 by 50 source with width-only 40 gives exactly
40 by 20, and a 60 by 90 source with height-only 30 gives exactly
20 by 30. -/
theorem resize_single_dim_aspect_witness :
    (transformImage ⟨100, 50⟩ (Commands.Resize (some 40) none)).1 = ⟨40, 20⟩ ∧
    (transformImage ⟨60, 90⟩ (Commands.Resize none (some 30))).1 = ⟨20, 30⟩ := by
  have h20 : heightFromWidth ⟨100, 50⟩ 40 = 20 := by
    norm_num [heightFromWidth, roundHalfUp]
    omega
  have w20 : widthFromHeight ⟨60, 90⟩ 30 = 20 := by
    norm_num [widthFromHeight, roundHalfUp]
    omega
  constructor
  · have := (resize_single_dim_aspect ⟨100, 50⟩ 40 0 (by norm_num) (by norm_num)).1
      (by norm_num) (by rw [h20]; norm_num)
    rw [h20] at this
    exact this
  · have := (resize_single_dim_aspect ⟨60, 90⟩ 0 30 (by norm_num) (by norm_num)).2.1
      (by norm_num) (by rw [w20]; norm_num)
    rw [w20] at this
    exact this

/-- C5: a resize with both width and height given yields exactly the
requested dimensions, whatever the source aspect ratio, via the
Lanczos3 resampling filter. -/
theorem resize_both_exact_dims (img : Image) (w h : ℕ) :
    transformImage img (Commands.Resize (some w) (some h)) =
      (⟨w, h⟩, some FilterType.Lanczos3) := by
  simp [transformImage, resize_exact]

/-- C6: a resize with neither width nor height given is the identity on
the image (no resampling call is made), so the output dimensions equal
the source dimensions. -/
theorem resize_neither_identity (img : Image) :
    transformImage img (Commands.Resize none none) = (img, none) := by
  simp [transformImage]

/-- C2 counterexample: a subdirectory named "x.png" is selected by the
discovery filter even though it is not a file, so discovery does not
select exactly the file entries with a supported extension. -/
theorem discovery_selects_subdir_cex :
    (⟨"x.png".toList, EntryKind.dir⟩ : DirEntry) ∈
      discovered [⟨"x.png".toList, EntryKind.dir⟩] ∧
    (⟨"x.png".toList, EntryKind.dir⟩ : DirEntry).kind ≠ EntryKind.file := by
  decide

/-- C2 (amended): discovery selects exactly the immediate entries whose
name has an extension that, lower-cased, is one of jpg, jpeg, png, gif,
webp — regardless of whether the entry is a file or a subdirectory;
entries without such an extension (a .txt file, say) are never selected,
and no entry outside the immediate listing is ever considered (the model
of the code consults only the one listing, never recursing). -/
theorem discovery_extension_only (listing : List DirEntry) (e : DirEntry) :
    e ∈ discovered listing ↔ e ∈ listing ∧ isSupportedExt e.name = true := by
  simp [discovered, List.mem_filter]

/-- The recognized convert target strings, lower-cased form. -/
def supportedTargets : List Str :=
  ["jpg".toList, "jpeg".toList, "png".toList, "gif".toList, "webp".toList]

theorem resolve_format_unsupported (fmt : Str)
    (hno : toLowercase fmt ∉ supportedTargets) :
    resolve_format fmt = Except.error (ProcError.unsupportedFormat fmt) := by
  simp only [supportedTargets, List.mem_cons, List.not_mem_nil, or_false, not_or] at hno
  obtain ⟨n1, n2, n3, n4, n5⟩ := hno
  simp only [resolve_format]
  rw [if_neg (not_or.mpr ⟨n1, n2⟩), if_neg n3, if_neg n4, if_neg n5]

/-- C3: for a convert of a readable image whose output parent directory
can be created, a requested format string that lower-cases to something
outside jpg/jpeg/png/gif/webp makes processing fail with the
unsupported-format error and no output file is written; the recognized
strings resolve to their codec formats. -/
theorem convert_format_resolution (fmt : Str) (w : World) (input output p : Str)
    (img : Image) (hopen : openImage w input = Except.ok img)
    (hpar : parentOf output = some p) (hdir : w.createDirOk p = true) :
    (toLowercase fmt ∉ supportedTargets →
      process_image w input output (Commands.Convert fmt) =
        (Except.error (ProcError.unsupportedFormat fmt), [Event.createDirAll p]) ∧
      ∀ q i f, Event.wrote q i f ∉
        (process_image w input output (Commands.Convert fmt)).2) ∧
    (toLowercase fmt = "jpg".toList ∨ toLowercase fmt = "jpeg".toList →
      resolve_format fmt = Except.ok ImageFormat.Jpeg) ∧
    (toLowercase fmt = "png".toList → resolve_format fmt = Except.ok ImageFormat.Png) ∧
    (toLowercase fmt = "gif".toList → resolve_format fmt = Except.ok ImageFormat.Gif) ∧
    (toLowercase fmt = "webp".toList → resolve_format fmt = Except.ok ImageFormat.WebP) := by
  refine ⟨?_, ?_, ?_, ?_, ?_⟩
  · intro hno
    have hres := resolve_format_unsupported fmt hno
    have heq : process_image w input output (Commands.Convert fmt) =
        (Except.error (ProcError.unsupportedFormat fmt), [Event.createDirAll p]) := by
      simp [process_image, hopen, hpar, hdir, hres]
    refine ⟨heq, ?_⟩
    intro q i f
    rw [heq]
    simp
  · intro hcase
    rcases hcase with hc | hc <;> simp [resolve_format, hc]
  · intro hc
    have : ¬ (toLowercase fmt = "jpg".toList ∨ toLowercase fmt = "jpeg".toList) := by
      rw [hc]; decide
    simp [resolve_format, hc, this]
  · intro hc
    have h1 : ¬ (toLowercase fmt = "jpg".toList ∨ toLowercase fmt = "jpeg".toList) := by
      rw [hc]; decide
    have h2 : toLowercase fmt ≠ "png".toList := by rw [hc]; decide
    simp [resolve_format, hc, h1, h2]
  · intro hc
    have h1 : ¬ (toLowercase fmt = "jpg".toList ∨ toLowercase fmt = "jpeg".toList) := by
      rw [hc]; decide
    have h2 : toLowercase fmt ≠ "png".toList := by rw [hc]; decide
    have h3 : toLowercase fmt ≠ "gif".toList := by rw [hc]; decide
    simp [resolve_format, hc, h1, h2, h3]

/-- Witness for C3: converting a readable 10 by 10 image to "bmp" fails
with the unsupported-format error, writes nothing, and "jpeg" resolves
to the JPEG codec format. -/
theorem convert_format_resolution_witness :
    process_image
        ⟨fun q => if q = "in.png".toList
            then some (FsNode.file (FileContent.image ⟨10, 10⟩)) else none,
          fun _ => [], fun _ => true⟩
        "in.png".toList "out/in.bmp".toList (Commands.Convert "bmp".toList) =
      (Except.error (ProcError.unsupportedFormat "bmp".toList),
        [Event.createDirAll "out".toList]) ∧
    resolve_format "jpeg".toList = Except.ok ImageFormat.Jpeg := by
  have h := convert_format_resolution "bmp".toList
    ⟨fun q => if q = "in.png".toList
        then some (FsNode.file (FileContent.image ⟨10, 10⟩)) else none,
      fun _ => [], fun _ => true⟩
    "in.png".toList "out/in.bmp".toList "out".toList ⟨10, 10⟩
    (by decide) (by decide) (by decide)
  have h2 := convert_format_resolution "jpeg".toList
    ⟨fun q => if q = "in.png".toList
        then some (FsNode.file (FileContent.image ⟨10, 10⟩)) else none,
      fun _ => [], fun _ => true⟩
    "in.png".toList "out/in.bmp".toList "out".toList ⟨10, 10⟩
    (by decide) (by decide) (by decide)
  exact ⟨(h.1 (by decide)).1, h2.2.1 (by decide)⟩

theorem splitLastDot_eq_none (t : Str) (ht : '.' ∉ t) : splitLastDot t = none := by
  induction t with
  | nil => rfl
  | cons c rest ih =>
    have hc : c ≠ '.' := fun h => ht (by simp [h])
    have hr : '.' ∉ rest := fun h => ht (by simp [h])
    simp [splitLastDot, ih hr, hc]

theorem splitLastDot_append (s t : Str) (ht : '.' ∉ t) :
    splitLastDot (s ++ '.' :: t) = some (s, t) := by
  induction s with
  | nil => simp [splitLastDot, splitLastDot_eq_none t ht]
  | cons c rest ih => simp [splitLastDot, ih]

theorem stemOf_ne_nil (s : Str) (hs : s ≠ []) : stemOf s ≠ [] := by
  unfold stemOf
  rcases h : splitLastDot s with _ | ⟨pre, ext⟩
  · exact hs
  · by_cases hp : pre = [] <;> simp [hp, hs]

/-- C7: in a batch convert run the derived output file name is the input
file's stem followed by a dot and the raw user-supplied format string —
verbatim, so a mixed-case request is preserved (it is not the lower-cased
catalog form); in a batch resize run the file name, extension included,
is kept unchanged.  Both are joined under the output directory. -/
theorem batch_output_path (output name fmt : Str) (w h : Option Nat)
    (hname : name ≠ []) (hfmt : fmt ≠ []) (hdot : '.' ∉ fmt) :
    output_path_for output name (Commands.Convert fmt) =
      pathJoin output (stemOf name ++ '.' :: fmt) ∧
    extOf (setExtension name fmt) = some fmt ∧
    output_path_for output name (Commands.Resize w h) = pathJoin output name := by
  have hset : setExtension name fmt = stemOf name ++ '.' :: fmt := by
    unfold setExtension
    rw [if_neg hfmt]
  refine ⟨?_, ?_, rfl⟩
  · simp only [output_path_for, hset]
  · rw [hset]
    unfold extOf
    rw [splitLastDot_append (stemOf name) fmt hdot]
    simp [stemOf_ne_nil name hname]

/-- Witness for C7: converting "photo.jpeg" with the mixed-case request
"PnG" derives the output name "photo.PnG" under "out" — the raw string,
not its lower-cased form — while a resize keeps "photo.jpeg". -/
theorem batch_output_path_witness :
    output_path_for "out".toList "photo.jpeg".toList (Commands.Convert "PnG".toList) =
      pathJoin "out".toList (stemOf "photo.jpeg".toList ++ '.' :: "PnG".toList) ∧
    extOf (setExtension "photo.jpeg".toList "PnG".toList) = some "PnG".toList ∧
    some ("PnG".toList) ≠ some (toLowercase "PnG".toList) ∧
    output_path_for "out".toList "photo.jpeg".toList (Commands.Resize (some 5) none) =
      pathJoin "out".toList "photo.jpeg".toList := by
  have h := batch_output_path "out".toList "photo.jpeg".toList "PnG".toList
    (some 5) none (by decide) (by decide) (by decide)
  exact ⟨h.1, h.2.1, by decide, h.2.2⟩

/-- C8: when the output path has a parent, `process_image` — the common
path of both the single-file mode and every batch worker — performs the
recursive creation of that parent directory before anything is written
(the first effect of the run is the create call), and a filesystem
failure of that creation makes processing fail with the I/O error and
write nothing. -/
theorem output_dir_creation (w : World) (input output : Str) (command : Commands)
    (img : Image) (p : Str)
    (hopen : openImage w input = Except.ok img) (hpar : parentOf output = some p) :
    (w.createDirOk p = false →
      process_image w input output command = (Except.error ProcError.ioError, [])) ∧
    (w.createDirOk p = true →
      ((process_image w input output command).2).head? = some (Event.createDirAll p)) := by
  constructor
  · intro hko
    simp [process_image, hopen, hpar, hko]
  · intro hok
    cases command with
    | Resize width height => simp [process_image, hopen, hpar, hok]
    | Convert fmt =>
      cases hres : resolve_format fmt with
      | error e => simp [process_image, hopen, hpar, hok, hres]
      | ok f => simp [process_image, hopen, hpar, hok, hres]

/-- Witness for C8: with a filesystem that refuses directory creation the
run fails with the I/O error; with one that allows it the first effect is
creating "out". -/
theorem output_dir_creation_witness :
    process_image
        ⟨fun q => if q = "a.png".toList
            then some (FsNode.file (FileContent.image ⟨4, 4⟩)) else none,
          fun _ => [], fun _ => false⟩
        "a.png".toList "out/a.png".toList (Commands.Resize none none) =
      (Except.error ProcError.ioError, []) ∧
    ((process_image
        ⟨fun q => if q = "a.png".toList
            then some (FsNode.file (FileContent.image ⟨4, 4⟩)) else none,
          fun _ => [], fun _ => true⟩
        "a.png".toList "out/a.png".toList (Commands.Resize none none)).2).head? =
      some (Event.createDirAll "out".toList) := by
  refine ⟨?_, ?_⟩
  · exact (output_dir_creation _ "a.png".toList "out/a.png".toList
      (Commands.Resize none none) ⟨4, 4⟩ "out".toList (by decide) (by decide)).1 rfl
  · exact (output_dir_creation _ "a.png".toList "out/a.png".toList
      (Commands.Resize none none) ⟨4, 4⟩ "out".toList (by decide) (by decide)).2 rfl

/-- C9: a run whose input path does not exist is dispatched to the
single-file branch (a missing path is not a directory) and fails with
the not-found error, an error kind distinct from the decode error used
for unreadable image bytes. -/
theorem missing_input_not_found (w : World) (input output : Str) (command : Commands)
    (hmiss : w.node input = none) :
    mainRun w input output command = (Except.error (ProcError.notFound input), []) ∧
    ∀ p q, ProcError.notFound p ≠ ProcError.decodeError q := by
  have hdir : isDir w input = false := by simp [isDir, hmiss]
  have hopen : openImage w input = Except.error (ProcError.notFound input) := by
    simp [openImage, hmiss]
  refine ⟨?_, fun p q h => ProcError.noConfusion h⟩
  simp [mainRun, hdir, process_image, hopen]

/-- Witness for C9: running on the absent path "ghost.png" fails with
the not-found error. -/
theorem missing_input_not_found_witness :
    mainRun ⟨fun _ => none, fun _ => [], fun _ => true⟩ "ghost.png".toList
        "o".toList (Commands.Resize none none) =
      (Except.error (ProcError.notFound "ghost.png".toList), []) :=
  (missing_input_not_found ⟨fun _ => none, fun _ => [], fun _ => true⟩
    "ghost.png".toList "o".toList (Commands.Resize none none) rfl).1

/-- C10: in a convert, decoding and parent-directory creation happen
before the format string is validated: with an unsupported format, an
input that fails to open or decode reports that error rather than the
unsupported-format error, and a readable input still gets its output
directory created as a side effect even though processing then fails
with the unsupported-format error. -/
theorem convert_validation_order (w : World) (input output fmt p : Str)
    (hbad : toLowercase fmt ∉ supportedTargets) :
    (∀ e, openImage w input = Except.error e →
      process_image w input output (Commands.Convert fmt) = (Except.error e, [])) ∧
    (∀ img, openImage w input = Except.ok img → parentOf output = some p →
      w.createDirOk p = true →
      process_image w input output (Commands.Convert fmt) =
        (Except.error (ProcError.unsupportedFormat fmt), [Event.createDirAll p])) := by
  have hres := resolve_format_unsupported fmt hbad
  constructor
  · intro e hopen
    simp [process_image, hopen]
  · intro img hopen hpar hok
    simp [process_image, hopen, hpar, hok, hres]

/-- Witness for C10: with the unsupported request "BMP", an unreadable
input reports its decode error, while a readable input leaves the
directory-creation effect behind and reports the unsupported format. -/
theorem convert_validation_order_witness :
    process_image
        ⟨fun q => if q = "bad.png".toList then some (FsNode.file FileContent.nonImage)
            else if q = "good.png".toList
            then some (FsNode.file (FileContent.image ⟨6, 6⟩)) else none,
          fun _ => [], fun _ => true⟩
        "bad.png".toList "out/bad.BMP".toList (Commands.Convert "BMP".toList) =
      (Except.error (ProcError.decodeError "bad.png".toList), []) ∧
    process_image
        ⟨fun q => if q = "bad.png".toList then some (FsNode.file FileContent.nonImage)
            else if q = "good.png".toList
            then some (FsNode.file (FileContent.image ⟨6, 6⟩)) else none,
          fun _ => [], fun _ => true⟩
        "good.png".toList "out/good.BMP".toList (Commands.Convert "BMP".toList) =
      (Except.error (ProcError.unsupportedFormat "BMP".toList),
        [Event.createDirAll "out".toList]) := by
  constructor
  · exact (convert_validation_order _ "bad.png".toList "out/bad.BMP".toList
      "BMP".toList "out".toList (by decide)).1
      (ProcError.decodeError "bad.png".toList) (by decide)
  · exact (convert_validation_order _ "good.png".toList "out/good.BMP".toList
      "BMP".toList "out".toList (by decide)).2 ⟨6, 6⟩
      (by decide) (by decide) rfl

theorem tryForEach_first_error (w : World) (input output : Str) (command : Commands)
    (bad : DirEntry) (post : List DirEntry) (err : ProcError)
    (hbad : (process_image w (pathJoin input bad.name)
        (output_path_for output bad.name command) command).1 = Except.error err) :
    ∀ pre : List DirEntry,
      (∀ e ∈ pre, (process_image w (pathJoin input e.name)
          (output_path_for output e.name command) command).1 = Except.ok ()) →
      (tryForEach w input output command (pre ++ bad :: post)).1 = Except.error err ∧
      ∀ e ∈ pre, ∀ ev ∈ (process_image w (pathJoin input e.name)
          (output_path_for output e.name command) command).2,
        ev ∈ (tryForEach w input output command (pre ++ bad :: post)).2 := by
  intro pre
  induction pre with
  | nil =>
    intro _
    refine ⟨?_, by simp⟩
    simp only [List.nil_append, tryForEach]
    rw [hbad]
  | cons a rest ih =>
    intro hpre
    have ha := hpre a (by simp)
    have hrest := ih (fun e he => hpre e (by simp [he]))
    constructor
    · simp only [List.cons_append, tryForEach]
      rw [ha]
      exact hrest.1
    · intro e he ev hev
      simp only [List.cons_append, tryForEach]
      rw [ha]
      simp only [List.mem_append]
      rcases List.mem_cons.mp he with rfl | he'
      · exact Or.inl hev
      · exact Or.inr (hrest.2 e he' ev hev)

/-- C4: when the discovered batch splits as earlier successes, a first
failing entry, and a remainder, the whole batch call returns exactly that
first error as its single result — there is no per-file error
collection — and every output file written for an earlier success is
still present among the final effects (nothing is rolled back).  The
rayon parallel loop is modelled as a sequential traversal, under which
the first error encountered is the first in listing order. -/
theorem batch_first_error (w : World) (input output : Str) (command : Commands)
    (pre : List DirEntry) (bad : DirEntry) (post : List DirEntry) (err : ProcError)
    (hdisc : discovered (w.listing input) = pre ++ bad :: post)
    (hpre : ∀ e ∈ pre, (process_image w (pathJoin input e.name)
        (output_path_for output e.name command) command).1 = Except.ok ())
    (hbad : (process_image w (pathJoin input bad.name)
        (output_path_for output bad.name command) command).1 = Except.error err) :
    (process_directory w input output command).1 = Except.error err ∧
    ∀ e ∈ pre, ∀ ev ∈ (process_image w (pathJoin input e.name)
        (output_path_for output e.name command) command).2,
      ev ∈ (process_directory w input output command).2 := by
  have h := tryForEach_first_error w input output command bad post err hbad pre hpre
  unfold process_directory
  rw [hdisc]
  exact h

/-- Witness for C4: a directory with a good "a.png" and an undecodable
"b.png" returns the decode error for "b.png" as the single batch result,
while the output written for "a.png" remains among the effects. -/
theorem batch_first_error_witness :
    (process_directory
        ⟨fun q => if q = "in/a.png".toList
            then some (FsNode.file (FileContent.image ⟨3, 2⟩))
            else if q = "in/b.png".toList then some (FsNode.file FileContent.nonImage)
            else if q = "in".toList then some FsNode.dir else none,
          fun q => if q = "in".toList
            then [⟨"a.png".toList, EntryKind.file⟩, ⟨"b.png".toList, EntryKind.file⟩]
            else [],
          fun _ => true⟩
        "in".toList "out".toList (Commands.Resize (some 2) (some 2))).1 =
      Except.error (ProcError.decodeError "in/b.png".toList) ∧
    Event.wrote "out/a.png".toList ⟨2, 2⟩ none ∈
      (process_directory
        ⟨fun q => if q = "in/a.png".toList
            then some (FsNode.file (FileContent.image ⟨3, 2⟩))
            else if q = "in/b.png".toList then some (FsNode.file FileContent.nonImage)
            else if q = "in".toList then some FsNode.dir else none,
          fun q => if q = "in".toList
            then [⟨"a.png".toList, EntryKind.file⟩, ⟨"b.png".toList, EntryKind.file⟩]
            else [],
          fun _ => true⟩
        "in".toList "out".toList (Commands.Resize (some 2) (some 2))).2 := by
  have h := batch_first_error
    ⟨fun q => if q = "in/a.png".toList
        then some (FsNode.file (FileContent.image ⟨3, 2⟩))
        else if q = "in/b.png".toList then some (FsNode.file FileContent.nonImage)
        else if q = "in".toList then some FsNode.dir else none,
      fun q => if q = "in".toList
        then [⟨"a.png".toList, EntryKind.file⟩, ⟨"b.png".toList, EntryKind.file⟩]
        else [],
      fun _ => true⟩
    "in".toList "out".toList (Commands.Resize (some 2) (some 2))
    [⟨"a.png".toList, EntryKind.file⟩] ⟨"b.png".toList, EntryKind.file⟩ []
    (ProcError.decodeError "in/b.png".toList)
    (by decide) (by decide) (by decide)
  exact ⟨h.1, h.2 ⟨"a.png".toList, EntryKind.file⟩ (by decide)
    (Event.wrote "out/a.png".toList ⟨2, 2⟩ none) (by decide)⟩

end Climageproc
